import Mathlib

/-!
Verification of the decision-and-derivation core of the `useInngest` envelop
plugin: the emission policy evaluator (`should-send-event.ts`) and the
schema helpers (`schema-helpers.ts`).

The embedding is shallow.  A parsed GraphQL document is modelled by its
definitions; a selection set is a structural tree whose list spine is fused
into the inductive (`SelTree`), so that every traversal is structurally
recursive and kernel-computable.  The schema is modelled by the resolution
functions the graphql-js `TypeInfo` machinery provides: which named output
type a field of a given parent type has, whether a type name exists, and
whether it is composite.  A JavaScript `TypeError` (reachable in
`getOperationName` through `rootOperation.name` when `rootOperation` is
`undefined`) is modelled with `Except`.  Logging through `options.logger`
is modelled by returning the list of logged lines alongside the result.
-/

/-- JavaScript runtime failures observable in this core: the `TypeError`
raised by reading a property of `undefined`. -/
inductive JsError where
  | typeError
deriving DecidableEq, Repr

/-- The operation type declared on an operation definition node
(graphql-js `OperationTypeNode`). -/
inductive OperationTypeNode where
  | query
  | mutation
  | subscription
deriving DecidableEq, Repr

/-- The operation kind as reported by `getOperation`: a declared operation
type or the string `'unknown'`. -/
inductive OperationKind where
  | query
  | mutation
  | subscription
  | unknown
deriving DecidableEq, Repr

/-- The `OperationKind` corresponding to a declared operation type. -/
def OperationTypeNode.toKind : OperationTypeNode → OperationKind
  | .query => .query
  | .mutation => .mutation
  | .subscription => .subscription

/-- String form of an operation kind, as interpolated into log lines. -/
def OperationKind.toStr : OperationKind → String
  | .query => "query"
  | .mutation => "mutation"
  | .subscription => "subscription"
  | .unknown => "unknown"

/-- A selection set of a GraphQL document.  The selection list's spine is
fused into the inductive so the type is not nested: `nil` is the empty
selection list, and each other constructor carries the rest of the list.
`fieldCons name subs rest` is a field with sub-selections `subs` followed
by `rest`; `inlineCons cond subs rest` is an inline fragment with optional
type condition; `spreadCons name rest` is a fragment spread (which the
graphql-js `visit` does not expand, so it contributes no field visits). -/
inductive SelTree where
  | nil
  | fieldCons (name : String) (subs : SelTree) (rest : SelTree)
  | inlineCons (cond : Option String) (subs : SelTree) (rest : SelTree)
  | spreadCons (name : String) (rest : SelTree)
deriving DecidableEq, Repr

/-- A definition of a GraphQL document: an operation definition (with its
operation type, optional name and selection set) or a fragment definition
(with its name, type condition and selection set). -/
inductive Definition where
  | operation (op : OperationTypeNode) (name : Option String) (selectionSet : SelTree)
  | fragmentDef (name : String) (typeCondition : String) (selectionSet : SelTree)
deriving DecidableEq, Repr

/-- A parsed GraphQL document: a list of definitions (graphql-js
`DocumentNode.definitions`). -/
structure Document where
  definitions : List Definition
deriving DecidableEq, Repr

/-- Whether a definition is an operation definition
(`definitionNode.kind === Kind.OPERATION_DEFINITION`). -/
def Definition.isOperationDefinition : Definition → Bool
  | .operation .. => true
  | .fragmentDef .. => false

/-- The `name?.value` of a definition node. -/
def Definition.defName : Definition → Option String
  | .operation _ n _ => n
  | .fragmentDef n _ _ => some n

/-- The declared operation type of a definition; `unknown` for a fragment
definition (never hit through `getOperationAST`, which only returns
operation definitions). -/
def Definition.opKind : Definition → OperationKind
  | .operation op _ _ => op.toKind
  | .fragmentDef .. => .unknown

/-- The schema, modelled by the resolution services graphql-js `TypeInfo`
provides to the visitors in this core: the root operation type names,
whether a type name is defined (used for fragment type conditions),
whether a type is composite (object/interface/union), and the named output
type of a field of a given composite parent type (`getNamedType` of the
field definition's type, i.e. list/non-null wrappers already stripped). -/
structure Schema where
  queryType : String
  mutationType : Option String
  subscriptionType : Option String
  hasType : String → Bool
  isComposite : String → Bool
  fieldType : String → String → Option String

/-- Names of the meta-introspection types; graphql-js `isIntrospectionType`
tests (by identity, equivalently by name, since `__`-prefixed names are
reserved) membership among exactly these schema-independent types. -/
def introspectionTypeNames : List String :=
  ["__Schema", "__Directive", "__DirectiveLocation", "__Type",
   "__Field", "__InputValue", "__EnumValue", "__TypeKind"]

/-- Field-type resolution as graphql-js `getFieldDef` performs it for
`TypeInfo`: the meta fields `__schema` and `__type` exist on the query
root type only, `__typename` on every composite type, and any other field
resolves through the schema's field map. -/
def resolveFieldType (s : Schema) (parent : String) (fieldName : String) : Option String :=
  if parent = s.queryType ∧ fieldName = "__schema" then some "__Schema"
  else if parent = s.queryType ∧ fieldName = "__type" then some "__Type"
  else if fieldName = "__typename" then some "String"
  else s.fieldType parent fieldName

/-- What `TypeInfo` exposes inside the `Field` visitor callback:
`typeInfo.getParentType()` (the enclosing composite type, if any), the
field name, and `getNamedType(typeInfo.getType())` (the field's resolved
named output type, if any). -/
structure FieldVisit where
  parentTypeName : Option String
  fieldName : String
  namedTypeName : Option String
deriving DecidableEq, Repr

/-- The enclosing composite type for a field: the current type if it is
composite, as `TypeInfo` pushes on entering a selection set. -/
def compositeParent (s : Schema) (cur : Option String) : Option String :=
  cur.bind fun t => if s.isComposite t then some t else none

/-- The `FieldVisit` record `TypeInfo` produces for a field named
`fieldName` under the current type `cur`. -/
def mkVisit (s : Schema) (cur : Option String) (fieldName : String) : FieldVisit :=
  let parent := compositeParent s cur
  { parentTypeName := parent
    fieldName := fieldName
    namedTypeName := parent.bind fun t => resolveFieldType s t fieldName }

/-- The type a fragment type condition resolves to (`typeFromAST`):
the condition's type when the schema defines it, else `undefined`. -/
def typeFromCondition (s : Schema) (cond : String) : Option String :=
  if s.hasType cond then some cond else none

/-- The current type inside an inline fragment: the resolved type
condition when one is declared, else the enclosing current type. -/
def inlineCur (s : Schema) (cur : Option String) (cond : Option String) : Option String :=
  match cond with
  | some t => typeFromCondition s t
  | none => cur

/-- The root type `TypeInfo` pushes for an operation definition. -/
def rootTypeOf (s : Schema) : OperationTypeNode → Option String
  | .query => some s.queryType
  | .mutation => s.mutationType
  | .subscription => s.subscriptionType

/-- The current type `TypeInfo` pushes for a whole definition node. -/
def defCur (s : Schema) : Definition → Option String
  | .operation op _ _ => rootTypeOf s op
  | .fragmentDef _ cond _ => typeFromCondition s cond

/-- All field visits of a selection tree, in document (depth-first)
order, with type information threaded as `TypeInfo` does. -/
def treeFields (s : Schema) (cur : Option String) : SelTree → List FieldVisit
  | .nil => []
  | .fieldCons name subs rest =>
    let v := mkVisit s cur name
    v :: (treeFields s v.namedTypeName subs ++ treeFields s cur rest)
  | .inlineCons cond subs rest =>
    treeFields s (inlineCur s cur cond) subs ++ treeFields s cur rest
  | .spreadCons _ rest => treeFields s cur rest

/-- The selection set of a definition. -/
def Definition.selectionSet : Definition → SelTree
  | .operation _ _ sels => sels
  | .fragmentDef _ _ sels => sels

/-- All field visits of a document, in document order: `visit` walks every
definition (operation and fragment definitions alike) in order. -/
def docFields (s : Schema) : List Definition → List FieldVisit
  | [] => []
  | d :: ds => treeFields s (defCur s d) d.selectionSet ++ docFields s ds

/-- All field visits of a document with the schema's type information
attached, in depth-first document order. -/
def fieldVisits (s : Schema) (d : Document) : List FieldVisit :=
  docFields s d.definitions

/-- The short-circuiting visit a `Field` callback returning `BREAK` on a
hit performs over a selection tree: the list of field visits actually
examined (in order) and whether a hit occurred (`BREAK`). -/
def visitTree (s : Schema) (p : FieldVisit → Bool) (cur : Option String) :
    SelTree → List FieldVisit × Bool
  | .nil => ([], false)
  | .fieldCons name subs rest =>
    let v := mkVisit s cur name
    if p v then ([v], true)
    else
      let r := visitTree s p v.namedTypeName subs
      if r.2 then (v :: r.1, true)
      else
        let r2 := visitTree s p cur rest
        (v :: (r.1 ++ r2.1), r2.2)
  | .inlineCons cond subs rest =>
    let r := visitTree s p (inlineCur s cur cond) subs
    if r.2 then r
    else
      let r2 := visitTree s p cur rest
      (r.1 ++ r2.1, r2.2)
  | .spreadCons _ rest => visitTree s p cur rest

/-- The short-circuiting visit over a whole document's definitions. -/
def visitDefs (s : Schema) (p : FieldVisit → Bool) :
    List Definition → List FieldVisit × Bool
  | [] => ([], false)
  | d :: ds =>
    let r := visitTree s p (defCur s d) d.selectionSet
    if r.2 then r
    else
      let r2 := visitDefs s p ds
      (r.1 ++ r2.1, r2.2)

/-- The short-circuiting document visit (graphql-js `visit` +
`visitWithTypeInfo` with a `Field` callback that returns `BREAK` when `p`
holds): the examined field visits and whether the flag was set. -/
def visitDoc (s : Schema) (p : FieldVisit → Bool) (d : Document) :
    List FieldVisit × Bool :=
  visitDefs s p d.definitions

/-- The prefix of a list up to and including the first element satisfying
`p` (the whole list if none does): the trace a `BREAK`-on-`p` visit
examines. -/
def takeThru (p : α → Bool) : List α → List α
  | [] => []
  | a :: as => if p a then [a] else a :: takeThru p as

theorem takeThru_of_any_eq_false (p : α → Bool) :
    ∀ l : List α, l.any p = false → takeThru p l = l := by
  intro l h
  induction l with
  | nil => rfl
  | cons a as ih =>
    simp only [List.any_cons, Bool.or_eq_false_iff] at h
    simp [takeThru, h.1, ih h.2]

theorem takeThru_append (p : α → Bool) (l₁ l₂ : List α) :
    takeThru p (l₁ ++ l₂) =
      if l₁.any p then takeThru p l₁ else l₁ ++ takeThru p l₂ := by
  induction l₁ with
  | nil => simp [takeThru]
  | cons a as ih =>
    by_cases h : p a = true
    · simp [takeThru, h]
    · simp only [Bool.not_eq_true] at h
      by_cases h2 : as.any p = true
      · simp [takeThru, h, h2, ih]
      · simp only [Bool.not_eq_true] at h2
        simp [takeThru, h, h2, ih]

/-- The short-circuiting tree visit is the `BREAK`-truncation of the full
field-visit list: its trace is `takeThru p` of all visits, and its flag is
whether any visit satisfies `p`. -/
theorem visitTree_eq (s : Schema) (p : FieldVisit → Bool) :
    ∀ (t : SelTree) (cur : Option String),
      visitTree s p cur t =
        (takeThru p (treeFields s cur t), (treeFields s cur t).any p) := by
  intro t
  induction t with
  | nil => intro cur; rfl
  | fieldCons name subs rest ihsubs ihrest =>
    intro cur
    simp only [visitTree, treeFields]
    by_cases h : p (mkVisit s cur name) = true
    · simp [h, takeThru]
    · simp only [Bool.not_eq_true] at h
      rw [ihsubs, ihrest]
      by_cases h2 : (treeFields s (mkVisit s cur name).namedTypeName subs).any p = true
      · simp [h, h2, takeThru, takeThru_append]
      · simp only [Bool.not_eq_true] at h2
        simp [h, h2, takeThru, takeThru_append,
          takeThru_of_any_eq_false p _ h2]
  | inlineCons cond subs rest ihsubs ihrest =>
    intro cur
    simp only [visitTree, treeFields]
    rw [ihsubs, ihrest]
    by_cases h2 : (treeFields s (inlineCur s cur cond) subs).any p = true
    · simp [h2, takeThru_append]
    · simp only [Bool.not_eq_true] at h2
      simp [h2, takeThru_append, takeThru_of_any_eq_false p _ h2]
  | spreadCons name rest ihrest =>
    intro cur
    simp only [visitTree, treeFields]
    exact ihrest cur

/-- The short-circuiting document visit is the `BREAK`-truncation of the
full field-visit list. -/
theorem visitDefs_eq (s : Schema) (p : FieldVisit → Bool) :
    ∀ ds : List Definition,
      visitDefs s p ds = (takeThru p (docFields s ds), (docFields s ds).any p) := by
  intro ds
  induction ds with
  | nil => rfl
  | cons d ds ih =>
    simp only [visitDefs, docFields]
    rw [visitTree_eq, ih]
    by_cases h : (treeFields s (defCur s d) d.selectionSet).any p = true
    · simp [h, takeThru_append]
    · simp only [Bool.not_eq_true] at h
      simp [h, takeThru_append, takeThru_of_any_eq_false p _ h]

theorem visitDoc_eq (s : Schema) (p : FieldVisit → Bool) (d : Document) :
    visitDoc s p d = (takeThru p (fieldVisits s d), (fieldVisits s d).any p) :=
  visitDefs_eq s p d.definitions

/-- The execution arguments supplied by the surrounding framework
(`params.args`): parsed document, resolved schema, optional declared
operation name. -/
structure ExecutionArgs where
  schema : Schema
  document : Document
  operationName : Option String

/-- The execute-phase payload; this core only reads `params.args`. -/
structure OnExecuteEventPayload where
  args : ExecutionArgs

/-- An execution result; this core reads only `errors` (the `data` tree is
consumed solely by the external `visitResult` traversal, abstracted below
as the list of identifier-field callback invocations it makes). -/
structure ExecutionResult where
  errors : Option (List String)

/-- The configured denylist (spec §3 `DenyList`). -/
structure Denylist where
  types : List String
  schemaCoordinates : List String

/-- Modelled from the spec: the plugin's `types.ts` (declaring
`UseInngestDataOptions`) is not under src; the fields are taken from the
spec's `EmissionConfig` (§3) and from how `should-send-event.ts` and
`schema-helpers.ts` read them.  The logger collaborator is modelled by
returning the logged lines, so no logger field is carried. -/
structure UseInngestDataOptions where
  params : OnExecuteEventPayload
  eventName : String
  result : Option ExecutionResult
  sendOperations : Option (List OperationKind)
  sendErrors : Bool
  sendIntrospection : Bool
  sendAnonymousOperations : Bool
  denylist : Option Denylist

/-- JavaScript truthiness of an optional string: `undefined` and the empty
string are falsy. -/
def jsTruthyStr : Option String → Bool
  | some s => s ≠ ""
  | none => false

/-- String interpolation of an optional string, as a template literal
renders it: `undefined` prints as `"undefined"`. -/
def optNameStr : Option String → String
  | some s => s
  | none => "undefined"

/-- graphql-js `getOperationAST(documentAST, operationName)`: with an
operation name that is not `null`/`undefined`, the first operation
definition whose declared name strictly equals it; with no operation name,
the unique operation definition if there is exactly one, else `null`. -/
def getOperationAST (d : Document) (operationName : Option String) : Option Definition :=
  match operationName with
  | some n =>
    d.definitions.find? fun df => df.isOperationDefinition && df.defName == some n
  | none =>
    match d.definitions.filter Definition.isOperationDefinition with
    | [df] => some df
    | _ => none

/-- `getOperation` (schema-helpers.ts): the operation of
`getOperationAST(params.args.document, params.args.operationName)`, or
`'unknown'` when none resolves. -/
def getOperation (params : OnExecuteEventPayload) : OperationKind :=
  match getOperationAST params.args.document params.args.operationName with
  | some df => df.opKind
  | none => .unknown

/-- `getOperationName` (schema-helpers.ts):
`args.operationName || rootOperation.name?.value || undefined`, where
`rootOperation` is the first definition of kind `OPERATION_DEFINITION`.
When `args.operationName` is falsy and the document has no operation
definition, `rootOperation` is `undefined` and reading `.name` on it
raises a `TypeError`. -/
def getOperationName (params : OnExecuteEventPayload) : Except JsError (Option String) :=
  let args := params.args
  if jsTruthyStr args.operationName then .ok args.operationName
  else
    match args.document.definitions.find? Definition.isOperationDefinition with
    | none => .error .typeError
    | some rootOperation =>
      .ok (if jsTruthyStr rootOperation.defName then rootOperation.defName else none)

/-- `isAnonymousOperation` (schema-helpers.ts):
`getOperationName({ params }) === undefined`. -/
def isAnonymousOperation (params : OnExecuteEventPayload) : Except JsError Bool :=
  (getOperationName params).map fun n => n = none

/-- `sendOperation` (schema-helpers.ts).  The guard
`!options.sendOperations === undefined` compares a Boolean with
`undefined` and is therefore always false, so the
`'No operations are allowed.'` warning is unreachable as written;
`new Set(undefined)` is the empty set.  Returns the decision together
with the lines logged through `options.logger.warn`. -/
def sendOperation (options : UseInngestDataOptions) : Except JsError (Bool × List String) :=
  let warnNoOps : Bool := false
  let logs0 : List String := if warnNoOps then ["No operations are allowed."] else []
  let ops : List OperationKind := options.sendOperations.getD []
  let operation := getOperation options.params
  if operation = .unknown then
    .ok (false, logs0 ++ ["Unknown operation"])
  else
    let allow := ops.contains operation
    if allow then .ok (true, logs0)
    else
      (getOperationName options.params).map fun operationName =>
        (false,
          logs0 ++
            ["Operation " ++ operation.toStr ++ " named " ++ optNameStr operationName ++
              " is not allowed"])

/-- Whether a field visit's resolved named output type is one of the
schema's meta-introspection types. -/
def introspectionHit (v : FieldVisit) : Bool :=
  match v.namedTypeName with
  | some n => introspectionTypeNames.contains n
  | none => false

/-- `isIntrospectionQuery` (schema-helpers.ts): visit the document with
type information; on each field, if `getNamedType(typeInfo.getType())` is
an introspection type, set the flag and `BREAK`. -/
def isIntrospectionQuery (params : OnExecuteEventPayload) : Bool :=
  (visitDoc params.args.schema introspectionHit params.args.document).2

/-- Whether a field visit's resolved named output type name is in the
given deny list of type names (`typeDenyList.includes(type?.name)`,
skipped when the type is unresolved). -/
def denyTypeHit (typeDenyList : List String) (v : FieldVisit) : Bool :=
  match v.namedTypeName with
  | some n => typeDenyList.contains n
  | none => false

/-- `denyType` (schema-helpers.ts): visit the document with type
information; on each field, if the resolved named type's name is in
`options.denylist?.types ?? []`, set the flag and `BREAK`.  (The source's
trailing `return false` after `return hasType` is dead code.) -/
def denyType (options : UseInngestDataOptions) : Bool :=
  let typeDenyList := (options.denylist.map Denylist.types).getD []
  (visitDoc options.params.args.schema (denyTypeHit typeDenyList)
    options.params.args.document).2

/-- Whether a field visit has a resolvable parent type whose schema
coordinate `"{parentTypeName}.{fieldName}"` is in the given deny list. -/
def denyCoordinateHit (coordinateDenyList : List String) (v : FieldVisit) : Bool :=
  match v.parentTypeName with
  | some p => coordinateDenyList.contains (p ++ "." ++ v.fieldName)
  | none => false

/-- `denySchemaCoordinate` (schema-helpers.ts): visit the document with
type information; on each field with a resolvable parent type, if
`"{parentType.name}.{fieldNode.name.value}"` is in
`options.denylist?.schemaCoordinates ?? []`, set the flag and `BREAK`. -/
def denySchemaCoordinate (options : UseInngestDataOptions) : Bool :=
  let coordinateDenyList := (options.denylist.map Denylist.schemaCoordinates).getD []
  (visitDoc options.params.args.schema (denyCoordinateHit coordinateDenyList)
    options.params.args.document).2

/-- `options.result?.errors !== undefined && options.result.errors.length > 0`
(should-send-event.ts line 8). -/
def hasErrors (options : UseInngestDataOptions) : Bool :=
  match options.result with
  | none => false
  | some r =>
    match r.errors with
    | none => false
    | some es => decide (0 < es.length)

/-- Modelled from the spec: `should-send-event.ts` imports
`allowOperation` from the plugin's `tools` module, which is not under
src; per spec §4.4 rule 1 the allow check is the operation-kind
allow-list check, i.e. `sendOperation` of schema-helpers.ts. -/
def allowOperation (options : UseInngestDataOptions) : Except JsError (Bool × List String) :=
  sendOperation options

/-- String form of a boolean as a template literal renders it. -/
def jsBoolStr (b : Bool) : String :=
  if b then "true" else "false"

/-- `shouldSendEvent` (should-send-event.ts): computes all six signals
eagerly (so a `TypeError` in `isAnonymousOperation` propagates before any
rule is applied), then runs the ordered cascade, returning the decision
and the logged lines. -/
def shouldSendEvent (options : UseInngestDataOptions) : Except JsError (Bool × List String) := do
  let allowed ← allowOperation options
  let allowedOperation := allowed.1
  let logsA := allowed.2
  let isAnonymous ← isAnonymousOperation options.params
  let isIntrospection := isIntrospectionQuery options.params
  let errs := hasErrors options
  let shouldDenyType := denyType options
  let shouldDenySchemaCoordinate := denySchemaCoordinate options
  if !allowedOperation then
    .ok (false, logsA ++
      ["Blocking event " ++ options.eventName ++ " because it is not an configured operation."])
  else if shouldDenyType then
    .ok (false, logsA ++
      ["Blocking event " ++ options.eventName ++ " because it is present in the denylist of types."])
  else if shouldDenySchemaCoordinate then
    .ok (false, logsA ++
      ["Blocking event " ++ options.eventName ++
        " because it is present in the denylist of schema coordinates."])
  else if isAnonymous && options.sendAnonymousOperations then
    .ok (true, logsA ++
      ["Sending event " ++ options.eventName ++ " because anonymous operations are configured."])
  else if isIntrospection && options.sendIntrospection then
    .ok (true, logsA ++
      ["Sending event " ++ options.eventName ++ " because introspection queries are configured."])
  else if errs && options.sendErrors then
    .ok (true, logsA ++
      ["Sending event " ++ options.eventName ++ " because sending errors is configured."])
  else
    let shouldSend := !isIntrospection && !errs
    if shouldSend then
      .ok (shouldSend, logsA ++
        ["Sending event " ++ options.eventName ++ " because it is an introspection " ++
          jsBoolStr isIntrospection ++ " or error " ++ jsBoolStr errs])
    else
      .ok (shouldSend, logsA ++
        ["Blocking event " ++ options.eventName ++ " because it is not an introspection " ++
          jsBoolStr isIntrospection ++ " or error " ++ jsBoolStr errs])

/-- Projection of a decision-with-logs onto the decision. -/
def decisionOf (e : Except JsError (Bool × List String)) : Except JsError Bool :=
  e.map Prod.fst

/-- An entity identifier record (`UseInngestEntityRecord`): a typename and
the value of an identifier field under it.  Identifier values are
modelled by their string serialization, which is what the source's map
key `` `${typename}:${id}` `` is built from. -/
structure UseInngestEntityRecord where
  typename : String
  id : String
deriving DecidableEq, Repr

/-- The map key `` `${typename}:${id}` `` used by `buildTypeIdentifiers`'s
`identifierSet`. -/
def entityKey (r : UseInngestEntityRecord) : String :=
  r.typename ++ ":" ++ r.id

/-- JavaScript `Map.set`: replaces the value at an existing key keeping
its insertion position, else appends, modelled on an association list. -/
def mapSet (k : String) (v : UseInngestEntityRecord) :
    List (String × UseInngestEntityRecord) → List (String × UseInngestEntityRecord)
  | [] => [(k, v)]
  | (k', v') :: rest => if k' = k then (k, v) :: rest else (k', v') :: mapSet k v rest

/-- JavaScript `Set.add` on strings: appends if absent, modelled on a
duplicate-free list in insertion order. -/
def setAdd (x : String) : List String → List String
  | [] => [x]
  | y :: rest => if y = x then y :: rest else y :: setAdd x rest

/-- One step of `buildTypeIdentifiers`'s visitor: the callback returned
for an identifier field (`idFields.includes(fieldName)`, `idFields =
['id']`) runs `identifierSet.set(` `` `${typename}:${id}` `` `,
{ typename, id })` and `typeSet.add(typename)`.  The `documentChanged`
branch of the proxy is dead code (`documentChanged = false`). -/
def recordIdentifier (st : List (String × UseInngestEntityRecord) × List String)
    (tv : String × String) :
    List (String × UseInngestEntityRecord) × List String :=
  (mapSet (tv.1 ++ ":" ++ tv.2) ⟨tv.1, tv.2⟩ st.1, setAdd tv.1 st.2)

/-- The accumulation core of `buildTypeIdentifiers` over the sequence of
identifier-field visits the external `visitResult` traversal performs (in
depth-first result order): each visit is a `(typename, id)` pair; the
result is `(Array.from(identifierSet.values()), Array.from(typeSet.values()))`. -/
def collectTypeIdentifiers (visits : List (String × String)) :
    List UseInngestEntityRecord × List String :=
  let st := visits.foldl recordIdentifier ([], [])
  (st.1.map Prod.snd, st.2)

/-- `buildTypeIdentifiers` (schema-helpers.ts): calls
`getOperationName(options)` (to pass to `visitResult`, so its `TypeError`
propagates), then accumulates over the identifier-field visits of the
result tree.  The external `visitResult` walk is abstracted by the list
of `(typename, id)` callback invocations it makes. -/
def buildTypeIdentifiers (options : UseInngestDataOptions)
    (visits : List (String × String)) :
    Except JsError (List UseInngestEntityRecord × List String) :=
  (getOperationName options.params).map fun _ => collectTypeIdentifiers visits

/-- A document with an operation definition resolved by `getOperationAST`
has an operation definition for `find?` to locate. -/
theorem find?_isSome_of_getOperationAST_eq_some
    {d : Document} {w : Option String} {df : Definition}
    (h : getOperationAST d w = some df) :
    (d.definitions.find? Definition.isOperationDefinition).isSome = true := by
  rw [List.find?_isSome]
  unfold getOperationAST at h
  match w with
  | some n =>
    simp only at h
    refine ⟨df, List.mem_of_find?_eq_some h, ?_⟩
    have := List.find?_some h
    exact (Bool.and_eq_true _ _).mp this |>.1
  | none =>
    simp only at h
    revert h
    match hf : d.definitions.filter Definition.isOperationDefinition with
    | [] => intro h; cases h
    | [df'] =>
      intro h
      injection h with h
      have hmem : df' ∈ d.definitions.filter Definition.isOperationDefinition := by
        rw [hf]; exact List.mem_singleton_self df'
      exact ⟨df', List.mem_of_mem_filter hmem, List.of_mem_filter hmem⟩
    | _ :: _ :: _ => intro h; cases h

/-- `getOperationName` succeeds whenever the document has an operation
definition or a truthy operation name is supplied. -/
theorem getOperationName_isOk
    {params : OnExecuteEventPayload}
    (h : ((params.args.document.definitions.find? Definition.isOperationDefinition).isSome
          || jsTruthyStr params.args.operationName) = true) :
    ∃ n, getOperationName params = .ok n := by
  unfold getOperationName
  by_cases ht : jsTruthyStr params.args.operationName = true
  · exact ⟨params.args.operationName, by simp [ht]⟩
  · simp only [Bool.not_eq_true] at ht
    rw [ht, Bool.or_false] at h
    match hf : params.args.document.definitions.find? Definition.isOperationDefinition with
    | some rootOperation =>
      refine ⟨if jsTruthyStr rootOperation.defName then rootOperation.defName else none, ?_⟩
      simp [ht, hf]
    | none => rw [hf] at h; cases h

/-- `sendOperation` succeeds whenever `getOperationName` does. -/
theorem sendOperation_isOk
    {options : UseInngestDataOptions} {n : Option String}
    (h : getOperationName options.params = .ok n) :
    ∃ r, sendOperation options = .ok r := by
  unfold sendOperation
  by_cases hu : getOperation options.params = .unknown
  · rw [if_pos hu]
    exact ⟨_, rfl⟩
  · rw [if_neg hu]
    cases hc : (options.sendOperations.getD []).contains (getOperation options.params) with
    | true =>
      simp only [hc, if_true]
      exact ⟨_, rfl⟩
    | false =>
      simp only [hc, if_false, Bool.false_eq_true]
      rw [h]
      exact ⟨_, rfl⟩

/-- A concrete schema used for the concrete evaluations below: a `Query`
root with a scalar field `test` and an entity field `post` of composite
type `Post`, which has an `id` field. -/
def testSchema : Schema where
  queryType := "Query"
  mutationType := none
  subscriptionType := none
  hasType := fun t => t = "Query" || t = "Post" || t = "String" || t = "ID"
  isComposite := fun t => t = "Query" || t = "Post"
  fieldType := fun t f =>
    if t = "Query" ∧ f = "test" then some "String"
    else if t = "Query" ∧ f = "post" then some "Post"
    else if t = "Post" ∧ f = "id" then some "ID"
    else if t = "Post" ∧ f = "title" then some "String"
    else none

/-- A baseline configuration over `testSchema` with a given document and
operation name: query operations allowed, all overrides off, no denylist,
no result. -/
def baseOptions (d : Document) (w : Option String) : UseInngestDataOptions where
  params := ⟨⟨testSchema, d, w⟩⟩
  eventName := "graphql/test-query.query"
  result := none
  sendOperations := some [.query]
  sendErrors := false
  sendIntrospection := false
  sendAnonymousOperations := false
  denylist := none

/-- C4: when `getOperationAST` resolves no operation definition, the
operation kind is reported as `'unknown'`, and `sendOperation` returns
`false` under every configuration (the `operation === 'unknown'` early
return fires before the allow-set is consulted, so even an allow-set
containing `unknown` is never matched): a denial, not a thrown failure. -/
theorem unknown_operation_is_denied
    (o : UseInngestDataOptions)
    (h : getOperationAST o.params.args.document o.params.args.operationName = none) :
    getOperation o.params = .unknown ∧ decisionOf (sendOperation o) = .ok false := by
  have hop : getOperation o.params = .unknown := by
    unfold getOperation
    rw [h]
  refine ⟨hop, ?_⟩
  unfold sendOperation
  simp [hop, decisionOf, Except.map]

/-- Witness for C4 at a document with zero operation definitions and an
allow-set that even contains `unknown`. -/
theorem unknown_operation_is_denied_witness :
    getOperationAST
        (baseOptions ⟨[.fragmentDef "F" "Query" (.fieldCons "test" .nil .nil)]⟩ none
          ).params.args.document
        (baseOptions ⟨[.fragmentDef "F" "Query" (.fieldCons "test" .nil .nil)]⟩ none
          ).params.args.operationName = none ∧
      getOperation
        { baseOptions ⟨[.fragmentDef "F" "Query" (.fieldCons "test" .nil .nil)]⟩ none with
            sendOperations := some [.query, .unknown] }.params = .unknown ∧
      decisionOf (sendOperation
        { baseOptions ⟨[.fragmentDef "F" "Query" (.fieldCons "test" .nil .nil)]⟩ none with
            sendOperations := some [.query, .unknown] }) = .ok false :=
  ⟨rfl,
    unknown_operation_is_denied
      { baseOptions ⟨[.fragmentDef "F" "Query" (.fieldCons "test" .nil .nil)]⟩ none with
          sendOperations := some [.query, .unknown] } rfl⟩

/-- C5 evidence: with `sendOperations` absent, `sendOperation` denies the
operation, but the `'No operations are allowed.'` warning is never logged:
the source's guard `!options.sendOperations === undefined` compares a
Boolean with `undefined` and is always false.  Evaluated at a named query
with the allow-list undefined: the only logged line is the not-allowed
rationale. -/
theorem sendOperation_absent_allowlist_never_warns :
    sendOperation
        { baseOptions ⟨[.operation .query (some "Q") (.fieldCons "test" .nil .nil)]⟩ none with
            sendOperations := none } =
      .ok (false, ["Operation query named Q is not allowed"]) ∧
      "No operations are allowed." ∉ ["Operation query named Q is not allowed"] :=
  ⟨rfl, by decide⟩

/-- Bridge between the boolean hit predicates and their existential
readings. -/
theorem introspectionHit_iff (v : FieldVisit) :
    introspectionHit v = true ↔
      ∃ n, v.namedTypeName = some n ∧ n ∈ introspectionTypeNames := by
  cases hv : v.namedTypeName with
  | none => simp [introspectionHit, hv]
  | some n => simp [introspectionHit, hv]

/-- C6: `isIntrospectionQuery` is true exactly when some field visited in
the document (with the schema's type information attached) has a resolved
named output type among the meta-introspection types; and the traversal is
the `BREAK`-truncated one — it examines only the field visits up to and
including the first such hit (`takeThru`), not the exhaustive list.  The
visitor performs no edits, so the (purely functional) traversal leaves the
document unchanged. -/
theorem isIntrospectionQuery_spec (params : OnExecuteEventPayload) :
    (isIntrospectionQuery params = true ↔
      ∃ v ∈ fieldVisits params.args.schema params.args.document,
        ∃ n, v.namedTypeName = some n ∧ n ∈ introspectionTypeNames) ∧
      (visitDoc params.args.schema introspectionHit params.args.document).1 =
        takeThru introspectionHit (fieldVisits params.args.schema params.args.document) := by
  constructor
  · unfold isIntrospectionQuery
    rw [visitDoc_eq]
    simp only [List.any_eq_true]
    constructor
    · rintro ⟨v, hv, hp⟩
      exact ⟨v, hv, (introspectionHit_iff v).mp hp⟩
    · rintro ⟨v, hv, hp⟩
      exact ⟨v, hv, (introspectionHit_iff v).mpr hp⟩
  · rw [visitDoc_eq]

/-- Bridge for the schema-coordinate hit predicate. -/
theorem denyCoordinateHit_iff (coords : List String) (v : FieldVisit) :
    denyCoordinateHit coords v = true ↔
      ∃ p, v.parentTypeName = some p ∧ (p ++ "." ++ v.fieldName) ∈ coords := by
  cases hv : v.parentTypeName with
  | none => simp [denyCoordinateHit, hv]
  | some p => simp [denyCoordinateHit, hv]

/-- `denySchemaCoordinate` as an exhaustive any over the full field-visit
list (by the `BREAK`-truncation equivalence). -/
theorem denySchemaCoordinate_eq_any (o : UseInngestDataOptions) :
    denySchemaCoordinate o =
      (fieldVisits o.params.args.schema o.params.args.document).any
        (denyCoordinateHit ((o.denylist.map Denylist.schemaCoordinates).getD [])) := by
  show (visitDoc o.params.args.schema
      (denyCoordinateHit ((o.denylist.map Denylist.schemaCoordinates).getD []))
      o.params.args.document).2 = _
  rw [visitDoc_eq]

/-- `denyType` as an exhaustive any over the full field-visit list. -/
theorem denyType_eq_any (o : UseInngestDataOptions) :
    denyType o =
      (fieldVisits o.params.args.schema o.params.args.document).any
        (denyTypeHit ((o.denylist.map Denylist.types).getD [])) := by
  show (visitDoc o.params.args.schema
      (denyTypeHit ((o.denylist.map Denylist.types).getD []))
      o.params.args.document).2 = _
  rw [visitDoc_eq]

/-- C7: `denySchemaCoordinate` is true exactly when some field visited in
the document has a resolvable parent type whose coordinate
`"{parentTypeName}.{fieldName}"` is in the configured
`denylist.schemaCoordinates` (keyed on parent type and field name, not on
the field's own output type); with the denylist absent it is false for
every document. -/
theorem denySchemaCoordinate_spec (o : UseInngestDataOptions) :
    (denySchemaCoordinate o = true ↔
      ∃ v ∈ fieldVisits o.params.args.schema o.params.args.document,
        ∃ p, v.parentTypeName = some p ∧
          (p ++ "." ++ v.fieldName) ∈
            (o.denylist.map Denylist.schemaCoordinates).getD []) ∧
      denySchemaCoordinate { o with denylist := none } = false := by
  constructor
  · rw [denySchemaCoordinate_eq_any]
    simp only [List.any_eq_true]
    constructor
    · rintro ⟨v, hv, hp⟩
      exact ⟨v, hv, (denyCoordinateHit_iff _ v).mp hp⟩
    · rintro ⟨v, hv, hp⟩
      exact ⟨v, hv, (denyCoordinateHit_iff _ v).mpr hp⟩
  · rw [denySchemaCoordinate_eq_any]
    simp only [List.any_eq_false]
    intro v _ hc
    rcases (denyCoordinateHit_iff _ v).mp hc with ⟨p, _, hm⟩
    simp at hm

/-- Whether an `Except` computation terminated normally with a value. -/
def exceptIsOk : Except JsError α → Bool
  | .ok _ => true
  | .error _ => false

/-- Reduction of a monadic bind on a successful `Except`. -/
theorem bindOk (a : α) (f : α → Except JsError β) :
    Bind.bind (Except.ok a) f = f a := rfl

/-- Decision-level characterization of the cascade: when the eagerly
computed signals resolve without a `TypeError`, `shouldSendEvent` returns
exactly the ordered-cascade decision of should-send-event.ts. -/
theorem decisionOf_shouldSendEvent
    (o : UseInngestDataOptions) (al anon : Bool) (la : List String)
    (h1 : sendOperation o = .ok (al, la))
    (h2 : isAnonymousOperation o.params = .ok anon) :
    decisionOf (shouldSendEvent o) = .ok (
      if !al then false
      else if denyType o then false
      else if denySchemaCoordinate o then false
      else if anon && o.sendAnonymousOperations then true
      else if isIntrospectionQuery o.params && o.sendIntrospection then true
      else if hasErrors o && o.sendErrors then true
      else (!isIntrospectionQuery o.params && !hasErrors o)) := by
  unfold shouldSendEvent allowOperation
  rw [h1, bindOk]
  rw [h2, bindOk]
  by_cases hal : al = true
  · simp only [hal, Bool.not_true, Bool.false_eq_true, if_false]
    by_cases hdt : denyType o = true
    · simp [hdt, decisionOf, Except.map]
    · simp only [Bool.not_eq_true] at hdt
      simp only [hdt, Bool.false_eq_true, if_false]
      by_cases hdc : denySchemaCoordinate o = true
      · simp [hdc, decisionOf, Except.map]
      · simp only [Bool.not_eq_true] at hdc
        simp only [hdc, Bool.false_eq_true, if_false]
        by_cases han : (anon && o.sendAnonymousOperations) = true
        · simp [han, decisionOf, Except.map]
        · simp only [Bool.not_eq_true] at han
          simp only [han, Bool.false_eq_true, if_false]
          by_cases hin : (isIntrospectionQuery o.params && o.sendIntrospection) = true
          · simp [hin, decisionOf, Except.map]
          · simp only [Bool.not_eq_true] at hin
            simp only [hin, Bool.false_eq_true, if_false]
            by_cases her : (hasErrors o && o.sendErrors) = true
            · simp [her, decisionOf, Except.map]
            · simp only [Bool.not_eq_true] at her
              simp only [her, Bool.false_eq_true, if_false]
              by_cases hs : (!isIntrospectionQuery o.params && !hasErrors o) = true
              · simp [hs, decisionOf, Except.map]
              · simp only [Bool.not_eq_true] at hs
                simp [hs, decisionOf, Except.map]
  · simp only [Bool.not_eq_true] at hal
    simp [hal, decisionOf, Except.map]

/-- `getOperationName` succeeds whenever `isAnonymousOperation` does. -/
theorem getOperationName_ok_of_isAnonymousOperation_ok
    {params : OnExecuteEventPayload} {a : Bool}
    (h : isAnonymousOperation params = .ok a) :
    ∃ n, getOperationName params = .ok n := by
  unfold isAnonymousOperation at h
  cases hn : getOperationName params with
  | ok n => exact ⟨n, rfl⟩
  | error e => rw [hn] at h; cases h

/-- C1 counterexample: an input whose document touches the denied type
`Post` (through a fragment definition) with introspection-sending enabled,
on which `shouldSendEvent` does not return `false` — it raises the
`TypeError` of the eager anonymity check (the document has no operation
definition and no operation name is supplied). -/
theorem shouldSendEvent_denied_type_can_throw :
    denyType
        { baseOptions ⟨[.fragmentDef "F" "Query" (.fieldCons "post" .nil .nil)]⟩ none with
            denylist := some ⟨["Post"], []⟩, sendIntrospection := true } = true ∧
      shouldSendEvent
        { baseOptions ⟨[.fragmentDef "F" "Query" (.fieldCons "post" .nil .nil)]⟩ none with
            denylist := some ⟨["Post"], []⟩, sendIntrospection := true } =
        .error .typeError :=
  ⟨rfl, rfl⟩

/-- C1 (amended): for every input whose document touches a type on the
configured denylist, provided the eager anonymity signal resolves (the
document has an operation definition or a non-empty operation name is
supplied — otherwise the evaluator raises a `TypeError` before any rule
applies), `shouldSendEvent` returns `false`, even when the operation is an
introspection query and `sendIntrospection` is true (and likewise for the
anonymous-operations and error-sending allows): deny rules precede allow
overrides. -/
theorem shouldSendEvent_denied_type_false
    (o : UseInngestDataOptions) (a : Bool)
    (ha : isAnonymousOperation o.params = .ok a)
    (hd : denyType o = true) :
    decisionOf (shouldSendEvent o) = .ok false := by
  obtain ⟨n, hn⟩ := getOperationName_ok_of_isAnonymousOperation_ok ha
  obtain ⟨⟨al, la⟩, hs⟩ := sendOperation_isOk hn
  rw [decisionOf_shouldSendEvent o al a la hs ha]
  cases al <;> simp [hd]

/-- Witness for C1 at a named query touching the denied type `Post` with
every allow override switched on. -/
theorem shouldSendEvent_denied_type_false_witness :
    isAnonymousOperation
        { baseOptions ⟨[.operation .query (some "Q") (.fieldCons "post" .nil .nil)]⟩ none with
            denylist := some ⟨["Post"], []⟩, sendIntrospection := true,
            sendAnonymousOperations := true, sendErrors := true }.params = .ok false ∧
      denyType
        { baseOptions ⟨[.operation .query (some "Q") (.fieldCons "post" .nil .nil)]⟩ none with
            denylist := some ⟨["Post"], []⟩, sendIntrospection := true,
            sendAnonymousOperations := true, sendErrors := true } = true ∧
      decisionOf (shouldSendEvent
        { baseOptions ⟨[.operation .query (some "Q") (.fieldCons "post" .nil .nil)]⟩ none with
            denylist := some ⟨["Post"], []⟩, sendIntrospection := true,
            sendAnonymousOperations := true, sendErrors := true }) = .ok false :=
  ⟨rfl, rfl,
    shouldSendEvent_denied_type_false
      { baseOptions ⟨[.operation .query (some "Q") (.fieldCons "post" .nil .nil)]⟩ none with
          denylist := some ⟨["Post"], []⟩, sendIntrospection := true,
          sendAnonymousOperations := true, sendErrors := true } false rfl rfl⟩

/-- C3: when no earlier cascade rule fires (the operation kind is allowed,
no denied type or schema coordinate is touched, and none of the
anonymous/introspection/error allow overrides applies), the decision is
exactly `!isIntrospection && !hasErrors`: `true` iff the operation is not
an introspection query and the result carries no errors — in particular,
a result carrying errors with `sendErrors` false is not sent. -/
theorem shouldSendEvent_default_rule
    (o : UseInngestDataOptions) (la : List String) (anon : Bool)
    (h1 : sendOperation o = .ok (true, la))
    (ha : isAnonymousOperation o.params = .ok anon)
    (h2 : denyType o = false)
    (h3 : denySchemaCoordinate o = false)
    (h4 : (anon && o.sendAnonymousOperations) = false)
    (h5 : (isIntrospectionQuery o.params && o.sendIntrospection) = false)
    (h6 : (hasErrors o && o.sendErrors) = false) :
    decisionOf (shouldSendEvent o) =
      .ok (!isIntrospectionQuery o.params && !hasErrors o) := by
  rw [decisionOf_shouldSendEvent o true anon la h1 ha]
  simp [h2, h3, h4, h5, h6]

/-- Witness for C3 at a named query whose result carries one error with
`sendErrors` false: not sent. -/
theorem shouldSendEvent_default_rule_witness :
    sendOperation
        { baseOptions ⟨[.operation .query (some "Q") (.fieldCons "test" .nil .nil)]⟩ none with
            result := some ⟨some ["boom"]⟩ } = .ok (true, []) ∧
      hasErrors
        { baseOptions ⟨[.operation .query (some "Q") (.fieldCons "test" .nil .nil)]⟩ none with
            result := some ⟨some ["boom"]⟩ } = true ∧
      decisionOf (shouldSendEvent
        { baseOptions ⟨[.operation .query (some "Q") (.fieldCons "test" .nil .nil)]⟩ none with
            result := some ⟨some ["boom"]⟩ }) = .ok false :=
  ⟨rfl, rfl,
    shouldSendEvent_default_rule
      { baseOptions ⟨[.operation .query (some "Q") (.fieldCons "test" .nil .nil)]⟩ none with
          result := some ⟨some ["boom"]⟩ } [] false rfl rfl rfl rfl rfl rfl rfl⟩

/-- C10: anonymity alone never causes denial — for an anonymous operation
whose kind is allowed, touching no denied type or coordinate, that is not
introspection and whose result carries no errors, the decision is `true`
with no constraint on `sendAnonymousOperations` (the flag is only an allow
override, never a deny condition). -/
theorem shouldSendEvent_anonymous_default_true
    (o : UseInngestDataOptions) (la : List String)
    (h1 : sendOperation o = .ok (true, la))
    (ha : isAnonymousOperation o.params = .ok true)
    (h2 : denyType o = false)
    (h3 : denySchemaCoordinate o = false)
    (h4 : isIntrospectionQuery o.params = false)
    (h5 : hasErrors o = false) :
    decisionOf (shouldSendEvent o) = .ok true := by
  rw [decisionOf_shouldSendEvent o true true la h1 ha]
  cases hf : o.sendAnonymousOperations <;> simp [h2, h3, h4, h5, hf]

/-- Witness for C10 at an anonymous query with
`sendAnonymousOperations := false` (the `baseOptions` default). -/
theorem shouldSendEvent_anonymous_default_true_witness :
    isAnonymousOperation
        (baseOptions ⟨[.operation .query none (.fieldCons "test" .nil .nil)]⟩ none).params =
      .ok true ∧
      (baseOptions ⟨[.operation .query none (.fieldCons "test" .nil .nil)]⟩ none
        ).sendAnonymousOperations = false ∧
      decisionOf (shouldSendEvent
        (baseOptions ⟨[.operation .query none (.fieldCons "test" .nil .nil)]⟩ none)) =
      .ok true :=
  ⟨rfl, rfl,
    shouldSendEvent_anonymous_default_true
      (baseOptions ⟨[.operation .query none (.fieldCons "test" .nil .nil)]⟩ none) []
      rfl rfl rfl rfl rfl rfl⟩

/-- The declared name resolution on the document side, as the (amended)
spec words it: the name on the document's first operation definition when
non-empty, else `undefined`; a `TypeError` when the document has no
operation definition at all. -/
def declaredOperationName (d : Document) : Except JsError (Option String) :=
  match d.definitions.find? Definition.isOperationDefinition with
  | none => .error .typeError
  | some df =>
    .ok (match df.defName with
      | some n => if n = "" then none else some n
      | none => none)

/-- Modelled from the spec (amended C8 wording): the operation-name
resolution — the explicitly supplied operation name when given and
non-empty, otherwise the declared name of the document's first operation
definition when non-empty, otherwise `undefined` (with a `TypeError` when
the fallback is reached and no operation definition exists). -/
def operationNameOfSpec (d : Document) (given : Option String) :
    Except JsError (Option String) :=
  match given with
  | some s => if s = "" then declaredOperationName d else .ok (some s)
  | none => declaredOperationName d

/-- C8 counterexample: with the explicitly supplied operation name `""`
(given, but empty, hence falsy in JavaScript), `getOperationName` returns
the name declared on the operation node instead of the supplied
argument. -/
theorem getOperationName_ignores_empty_supplied_name :
    (⟨⟨testSchema,
        ⟨[.operation .query (some "Foo") (.fieldCons "test" .nil .nil)]⟩,
        some ""⟩⟩ : OnExecuteEventPayload).args.operationName = some "" ∧
      getOperationName
        ⟨⟨testSchema,
          ⟨[.operation .query (some "Foo") (.fieldCons "test" .nil .nil)]⟩,
          some ""⟩⟩ = .ok (some "Foo") :=
  ⟨rfl, rfl⟩

/-- C8 (amended): `getOperationName` returns the explicitly supplied
operation name when given and non-empty, otherwise the name declared on
the document's first operation definition node when non-empty, otherwise
`undefined` — raising a `TypeError` when the fallback is reached and the
document has no operation definition; and `isAnonymousOperation` returns
true exactly when this resolution yields `undefined`. -/
theorem getOperationName_spec (params : OnExecuteEventPayload) :
    getOperationName params =
      operationNameOfSpec params.args.document params.args.operationName ∧
      (isAnonymousOperation params = .ok true ↔
        operationNameOfSpec params.args.document params.args.operationName = .ok none) := by
  have hmain : getOperationName params =
      operationNameOfSpec params.args.document params.args.operationName := by
    cases hw : params.args.operationName with
    | none =>
      cases hf : params.args.document.definitions.find? Definition.isOperationDefinition with
      | none =>
        simp [getOperationName, operationNameOfSpec, declaredOperationName,
          jsTruthyStr, hw, hf]
      | some df =>
        cases hn : df.defName with
        | none =>
          simp [getOperationName, operationNameOfSpec, declaredOperationName,
            jsTruthyStr, hw, hf, hn]
        | some n =>
          by_cases he : n = "" <;>
            simp [getOperationName, operationNameOfSpec, declaredOperationName,
              jsTruthyStr, hw, hf, hn, he]
    | some s =>
      by_cases he : s = ""
      · cases hf : params.args.document.definitions.find? Definition.isOperationDefinition with
        | none =>
          simp [getOperationName, operationNameOfSpec, declaredOperationName,
            jsTruthyStr, hw, hf, he]
        | some df =>
          cases hn : df.defName with
          | none =>
            simp [getOperationName, operationNameOfSpec, declaredOperationName,
              jsTruthyStr, hw, hf, hn, he]
          | some n =>
            by_cases hne : n = "" <;>
              simp [getOperationName, operationNameOfSpec, declaredOperationName,
                jsTruthyStr, hw, hf, hn, he, hne]
      · simp [getOperationName, operationNameOfSpec, jsTruthyStr, hw, he]
  refine ⟨hmain, ?_⟩
  unfold isAnonymousOperation
  rw [hmain]
  cases hs : operationNameOfSpec params.args.document params.args.operationName with
  | error e => simp [Except.map]
  | ok n =>
    cases n with
    | none => simp [Except.map]
    | some m => simp [Except.map]

/-- A computation whose decision projection succeeds succeeded itself. -/
theorem exceptIsOk_of_decisionOf_ok
    {e : Except JsError (Bool × List String)} {b : Bool}
    (h : decisionOf e = .ok b) : exceptIsOk e = true := by
  cases e with
  | ok r => rfl
  | error err => cases h

/-- C9 counterexample: on a document with zero operation definitions and
no supplied operation name, `getOperationName` raises a `TypeError`, and so
do `isAnonymousOperation`, `shouldSendEvent` (which computes the anonymity
signal eagerly) and `buildTypeIdentifiers` (which resolves the operation
name for the result walk) — the request-aborting failure the claim says
cannot happen. -/
theorem core_throws_on_operationless_document :
    getOperationName
        (baseOptions ⟨[.fragmentDef "G" "Query" (.fieldCons "test" .nil .nil)]⟩ none).params =
      .error .typeError ∧
      isAnonymousOperation
        (baseOptions ⟨[.fragmentDef "G" "Query" (.fieldCons "test" .nil .nil)]⟩ none).params =
      .error .typeError ∧
      shouldSendEvent
        (baseOptions ⟨[.fragmentDef "G" "Query" (.fieldCons "test" .nil .nil)]⟩ none) =
      .error .typeError ∧
      buildTypeIdentifiers
        (baseOptions ⟨[.fragmentDef "G" "Query" (.fieldCons "test" .nil .nil)]⟩ none) [] =
      .error .typeError :=
  ⟨rfl, rfl, rfl, rfl⟩

/-- C9 (amended): on every input whose document contains an operation
definition or whose configuration supplies a non-empty operation name —
the upstream contract the spec assumes — `shouldSendEvent`,
`sendOperation`, `getOperationName`, `isAnonymousOperation` and
`buildTypeIdentifiers` all terminate normally with a value (irregularities
such as a missing result, an absent configuration field or an unresolvable
operation kind included); only a document with zero operation definitions
and no supplied name makes the name resolution (and its callers) raise. -/
theorem core_total_when_operation_resolvable
    (o : UseInngestDataOptions) (visits : List (String × String))
    (h : ((o.params.args.document.definitions.find? Definition.isOperationDefinition).isSome
          || jsTruthyStr o.params.args.operationName) = true) :
    exceptIsOk (getOperationName o.params) = true ∧
      exceptIsOk (isAnonymousOperation o.params) = true ∧
      exceptIsOk (sendOperation o) = true ∧
      exceptIsOk (shouldSendEvent o) = true ∧
      exceptIsOk (buildTypeIdentifiers o visits) = true := by
  obtain ⟨n, hn⟩ := getOperationName_isOk h
  obtain ⟨b, hb⟩ : ∃ b, isAnonymousOperation o.params = .ok b := by
    unfold isAnonymousOperation
    rw [hn]
    exact ⟨_, rfl⟩
  obtain ⟨r, hr⟩ := sendOperation_isOk hn
  refine ⟨by rw [hn]; rfl, by rw [hb]; rfl, by rw [hr]; rfl, ?_, ?_⟩
  · obtain ⟨al, la⟩ := r
    exact exceptIsOk_of_decisionOf_ok (decisionOf_shouldSendEvent o al b la hr hb)
  · unfold buildTypeIdentifiers
    rw [hn]
    rfl

/-- Witness for C9 at a named query, a missing result, an absent denylist
and a nonempty visit list. -/
theorem core_total_when_operation_resolvable_witness :
    (((baseOptions ⟨[.operation .query (some "Q") (.fieldCons "test" .nil .nil)]⟩ none
        ).params.args.document.definitions.find? Definition.isOperationDefinition).isSome
      || jsTruthyStr
        (baseOptions ⟨[.operation .query (some "Q") (.fieldCons "test" .nil .nil)]⟩ none
          ).params.args.operationName) = true ∧
      (exceptIsOk (getOperationName
          (baseOptions ⟨[.operation .query (some "Q") (.fieldCons "test" .nil .nil)]⟩ none
            ).params) = true ∧
        exceptIsOk (isAnonymousOperation
          (baseOptions ⟨[.operation .query (some "Q") (.fieldCons "test" .nil .nil)]⟩ none
            ).params) = true ∧
        exceptIsOk (sendOperation
          (baseOptions ⟨[.operation .query (some "Q") (.fieldCons "test" .nil .nil)]⟩ none)) =
          true ∧
        exceptIsOk (shouldSendEvent
          (baseOptions ⟨[.operation .query (some "Q") (.fieldCons "test" .nil .nil)]⟩ none)) =
          true ∧
        exceptIsOk (buildTypeIdentifiers
          (baseOptions ⟨[.operation .query (some "Q") (.fieldCons "test" .nil .nil)]⟩ none)
          [("Post", "1")]) = true) :=
  ⟨rfl,
    core_total_when_operation_resolvable
      (baseOptions ⟨[.operation .query (some "Q") (.fieldCons "test" .nil .nil)]⟩ none)
      [("Post", "1")] rfl⟩

/-- Whether every typename in a visit list is a valid GraphQL type name in
the respect the map key construction relies on: it contains no colon.
(Schema type names match the GraphQL name grammar, which excludes `':'`;
schema construction and validation are external to this core.) -/
def colonFreeTypenames (visits : List (String × String)) : Bool :=
  visits.all fun tv => !(tv.1.data.contains ':')

/-- Splitting a character list at a distinguished character absent from
both prefixes is unambiguous. -/
theorem append_cons_inj (c : Char) :
    ∀ (l₁ l₂ r₁ r₂ : List Char), c ∉ l₁ → c ∉ l₂ →
      l₁ ++ c :: r₁ = l₂ ++ c :: r₂ → l₁ = l₂ ∧ r₁ = r₂ := by
  intro l₁
  induction l₁ with
  | nil =>
    intro l₂ r₁ r₂ h1 h2 h
    cases l₂ with
    | nil => simpa using h
    | cons y l₂t =>
      simp only [List.nil_append, List.cons_append, List.cons.injEq] at h
      exact absurd (h.1 ▸ List.mem_cons_self y l₂t) h2
  | cons x l₁t ih =>
    intro l₂ r₁ r₂ h1 h2 h
    cases l₂ with
    | nil =>
      simp only [List.cons_append, List.nil_append, List.cons.injEq] at h
      exact absurd (h.1 ▸ List.mem_cons_self x l₁t) h1
    | cons y l₂t =>
      simp only [List.cons_append, List.cons.injEq] at h
      have h1t : c ∉ l₁t := fun hm => h1 (List.mem_cons_of_mem x hm)
      have h2t : c ∉ l₂t := fun hm => h2 (List.mem_cons_of_mem y hm)
      obtain ⟨he, ht⟩ := ih l₂t r₁ r₂ h1t h2t h.2
      exact ⟨by rw [h.1, he], ht⟩

/-- The map key `` `${typename}:${id}` `` determines the record when the
typename contains no colon. -/
theorem entityKey_inj {r₁ r₂ : UseInngestEntityRecord}
    (h1 : ':' ∉ r₁.typename.data) (h2 : ':' ∉ r₂.typename.data)
    (h : entityKey r₁ = entityKey r₂) : r₁ = r₂ := by
  unfold entityKey at h
  have hd : r₁.typename.data ++ ':' :: r₁.id.data =
      r₂.typename.data ++ ':' :: r₂.id.data := by
    have := congrArg String.data h
    simpa [String.data_append] using this
  obtain ⟨ht, hi⟩ := append_cons_inj ':' _ _ _ _ h1 h2 hd
  have htn : r₁.typename = r₂.typename := by
    cases hT1 : r₁.typename
    cases hT2 : r₂.typename
    rw [hT1, hT2] at ht
    exact congrArg String.mk ht
  have hin : r₁.id = r₂.id := by
    cases hI1 : r₁.id
    cases hI2 : r₂.id
    rw [hI1, hI2] at hi
    exact congrArg String.mk hi
  cases r₁
  cases r₂
  simp only at htn hin
  rw [htn, hin]

/-- Membership after a JavaScript set add. -/
theorem setAdd_mem (x y : String) :
    ∀ l : List String, y ∈ setAdd x l ↔ y = x ∨ y ∈ l := by
  intro l
  induction l with
  | nil => simp [setAdd]
  | cons z rest ih =>
    by_cases hz : z = x
    · subst hz
      simp only [setAdd, if_pos rfl]
      constructor
      · intro hm
        rcases List.mem_cons.mp hm with h | h
        · exact Or.inl h
        · exact Or.inr (List.mem_cons_of_mem z h)
      · rintro (h | h)
        · exact h ▸ List.mem_cons_self z rest
        · exact h
    · simp only [setAdd, if_neg hz, List.mem_cons, ih]
      constructor
      · rintro (h | h | h)
        · exact Or.inr (Or.inl h)
        · exact Or.inl h
        · exact Or.inr (Or.inr h)
      · rintro (h | h | h)
        · exact Or.inr (Or.inl h)
        · exact Or.inl h
        · exact Or.inr (Or.inr h)

/-- A JavaScript set add preserves freedom from duplicates. -/
theorem setAdd_nodup (x : String) :
    ∀ l : List String, l.Nodup → (setAdd x l).Nodup := by
  intro l
  induction l with
  | nil => intro _; simp [setAdd]
  | cons z rest ih =>
    intro hn
    rcases List.nodup_cons.mp hn with ⟨hz, hrest⟩
    by_cases hzx : z = x
    · simpa [setAdd, if_pos hzx] using hn
    · rw [setAdd, if_neg hzx]
      refine List.nodup_cons.mpr ⟨?_, ih hrest⟩
      intro hm
      rcases (setAdd_mem x z rest).mp hm with h | h
      · exact hzx h
      · exact hz h

/-- `Map.set` at a key bound nowhere appends the binding. -/
theorem mapSet_eq_append_of_not_mem (k : String) (v : UseInngestEntityRecord) :
    ∀ l, k ∉ l.map Prod.fst → mapSet k v l = l ++ [(k, v)] := by
  intro l
  induction l with
  | nil => intro _; rfl
  | cons p rest ih =>
    intro hk
    obtain ⟨k', v'⟩ := p
    simp only [List.map_cons, List.mem_cons] at hk
    push_neg at hk
    rw [mapSet, if_neg (fun he => hk.1 he.symm), ih hk.2]
    rfl

/-- `Map.set` re-binding a key to the value it already holds is the
identity. -/
theorem mapSet_eq_self (k : String) (v : UseInngestEntityRecord) :
    ∀ l, (∀ p ∈ l, p.1 = k → p.2 = v) → k ∈ l.map Prod.fst → mapSet k v l = l := by
  intro l
  induction l with
  | nil => intro _ hm; simp at hm
  | cons p rest ih =>
    intro hv hm
    obtain ⟨k', v'⟩ := p
    by_cases hk : k' = k
    · have : v' = v := hv (k', v') (List.mem_cons_self _ _) hk
      rw [mapSet, if_pos hk, hk, this]
    · simp only [List.map_cons, List.mem_cons] at hm
      rcases hm with hm | hm
      · exact absurd hm.symm hk
      · rw [mapSet, if_neg hk,
          ih (fun p hp => hv p (List.mem_cons_of_mem _ hp)) hm]

/-- Invariant of `buildTypeIdentifiers`'s accumulation state after the
visits in `done` have been processed: every binding of the identifier map
is keyed by its record's `` `${typename}:${id}` `` string, the keys are
duplicate-free, the stored records are exactly those of the processed
`(typename, id)` pairs, and the type set holds exactly the processed
typenames, without duplicates. -/
def StInv (done : List (String × String))
    (st : List (String × UseInngestEntityRecord) × List String) : Prop :=
  (∀ p ∈ st.1, p.1 = entityKey p.2) ∧
  (st.1.map Prod.fst).Nodup ∧
  (∀ r : UseInngestEntityRecord, r ∈ st.1.map Prod.snd ↔ (r.typename, r.id) ∈ done) ∧
  (∀ t : String, t ∈ st.2 ↔ ∃ i, (t, i) ∈ done) ∧
  st.2.Nodup

theorem StInv_nil : StInv [] ([], []) :=
  ⟨by simp, by simp, by simp, by simp, by simp⟩

theorem StInv_step (done : List (String × String)) (tv : String × String)
    (st : List (String × UseInngestEntityRecord) × List String)
    (hdone : ∀ q ∈ done, ':' ∉ q.1.data)
    (htv : ':' ∉ tv.1.data)
    (hinv : StInv done st) :
    StInv (done ++ [tv]) (recordIdentifier st tv) := by
  obtain ⟨inv1, inv2, inv3, inv4, inv5⟩ := hinv
  have hts_mem : ∀ t : String, t ∈ setAdd tv.1 st.2 ↔ ∃ i, (t, i) ∈ done ++ [tv] := by
    intro t
    rw [setAdd_mem]
    constructor
    · rintro (h | h)
      · exact ⟨tv.2, by simp [h]⟩
      · rcases (inv4 t).mp h with ⟨i, hi⟩
        exact ⟨i, List.mem_append_left _ hi⟩
    · rintro ⟨i, hi⟩
      rcases List.mem_append.mp hi with h | h
      · exact Or.inr ((inv4 t).mpr ⟨i, h⟩)
      · exact Or.inl (congrArg Prod.fst (List.mem_singleton.mp h))
  have hts_nodup := setAdd_nodup tv.1 st.2 inv5
  by_cases hk : (tv.1 ++ ":" ++ tv.2) ∈ st.1.map Prod.fst
  · have hval : ∀ p ∈ st.1, p.1 = tv.1 ++ ":" ++ tv.2 →
        p.2 = (⟨tv.1, tv.2⟩ : UseInngestEntityRecord) := by
      intro p hp hpk
      have hpair := (inv3 p.2).mp (List.mem_map_of_mem Prod.snd hp)
      refine entityKey_inj (hdone _ hpair) htv ?_
      rw [inv1 p hp] at hpk
      exact hpk
    have hms := mapSet_eq_self (tv.1 ++ ":" ++ tv.2) ⟨tv.1, tv.2⟩ st.1 hval hk
    have hrec : (⟨tv.1, tv.2⟩ : UseInngestEntityRecord) ∈ st.1.map Prod.snd := by
      rcases List.mem_map.mp hk with ⟨p, hp, hpk⟩
      rw [← hval p hp hpk]
      exact List.mem_map_of_mem Prod.snd hp
    have hA : ∀ p ∈ mapSet (tv.1 ++ ":" ++ tv.2) ⟨tv.1, tv.2⟩ st.1,
        p.1 = entityKey p.2 := by
      rw [hms]; exact inv1
    have hB : ((mapSet (tv.1 ++ ":" ++ tv.2) ⟨tv.1, tv.2⟩ st.1).map Prod.fst).Nodup := by
      rw [hms]; exact inv2
    have hC : ∀ r : UseInngestEntityRecord,
        r ∈ (mapSet (tv.1 ++ ":" ++ tv.2) ⟨tv.1, tv.2⟩ st.1).map Prod.snd ↔
          (r.typename, r.id) ∈ done ++ [tv] := by
      intro r
      rw [hms]
      constructor
      · intro hr
        exact List.mem_append_left _ ((inv3 r).mp hr)
      · intro hr
        rcases List.mem_append.mp hr with h | h
        · exact (inv3 r).mpr h
        · have hp : (r.typename, r.id) = tv := List.mem_singleton.mp h
          have hr2 : r = ⟨tv.1, tv.2⟩ := by
            obtain ⟨rt, ri⟩ := r
            obtain ⟨t1, t2⟩ := tv
            simp only [Prod.mk.injEq] at hp
            simp [hp.1, hp.2]
          rw [hr2]
          exact hrec
    exact ⟨hA, hB, hC, hts_mem, hts_nodup⟩
  · have hms := mapSet_eq_append_of_not_mem (tv.1 ++ ":" ++ tv.2) ⟨tv.1, tv.2⟩ st.1 hk
    have hA : ∀ p ∈ mapSet (tv.1 ++ ":" ++ tv.2) ⟨tv.1, tv.2⟩ st.1,
        p.1 = entityKey p.2 := by
      rw [hms]
      intro p hp
      rcases List.mem_append.mp hp with h | h
      · exact inv1 p h
      · rw [List.mem_singleton.mp h]
        rfl
    have hB : ((mapSet (tv.1 ++ ":" ++ tv.2) ⟨tv.1, tv.2⟩ st.1).map Prod.fst).Nodup := by
      rw [hms, List.map_append]
      simp only [List.map_cons, List.map_nil]
      rw [List.nodup_append]
      refine ⟨inv2, List.nodup_singleton _, ?_⟩
      intro a ha hb
      rw [List.mem_singleton.mp hb] at ha
      exact hk ha
    have hC : ∀ r : UseInngestEntityRecord,
        r ∈ (mapSet (tv.1 ++ ":" ++ tv.2) ⟨tv.1, tv.2⟩ st.1).map Prod.snd ↔
          (r.typename, r.id) ∈ done ++ [tv] := by
      intro r
      rw [hms, List.map_append]
      simp only [List.map_cons, List.map_nil]
      constructor
      · intro hr
        rcases List.mem_append.mp hr with h | h
        · exact List.mem_append_left _ ((inv3 r).mp h)
        · rw [List.mem_singleton.mp h]
          refine List.mem_append_right _ ?_
          simp
      · intro hr
        rcases List.mem_append.mp hr with h | h
        · exact List.mem_append_left _ ((inv3 r).mpr h)
        · have hp : (r.typename, r.id) = tv := List.mem_singleton.mp h
          have hr2 : r = ⟨tv.1, tv.2⟩ := by
            obtain ⟨rt, ri⟩ := r
            obtain ⟨t1, t2⟩ := tv
            simp only [Prod.mk.injEq] at hp
            simp [hp.1, hp.2]
          refine List.mem_append_right _ ?_
          rw [hr2]
          simp
    exact ⟨hA, hB, hC, hts_mem, hts_nodup⟩

theorem foldl_recordIdentifier_inv :
    ∀ (visits done : List (String × String))
      (st : List (String × UseInngestEntityRecord) × List String),
      (∀ q ∈ done, ':' ∉ q.1.data) →
      (∀ q ∈ visits, ':' ∉ q.1.data) →
      StInv done st →
      StInv (done ++ visits) (visits.foldl recordIdentifier st) := by
  intro visits
  induction visits with
  | nil =>
    intro done st _ _ hinv
    simpa using hinv
  | cons tv rest ih =>
    intro done st hdone hvis hinv
    have htv : ':' ∉ tv.1.data := hvis tv (List.mem_cons_self _ _)
    have hrest : ∀ q ∈ rest, ':' ∉ q.1.data :=
      fun q hq => hvis q (List.mem_cons_of_mem _ hq)
    have hdone2 : ∀ q ∈ done ++ [tv], ':' ∉ q.1.data := by
      intro q hq
      rcases List.mem_append.mp hq with h | h
      · exact hdone q h
      · rw [List.mem_singleton.mp h]
        exact htv
    have hstep := StInv_step done tv st hdone htv hinv
    have hrec := ih (done ++ [tv]) (recordIdentifier st tv) hdone2 hrest hstep
    rw [List.foldl_cons]
    rw [show done ++ tv :: rest = (done ++ [tv]) ++ rest by simp]
    exact hrec

/-- C2: `buildTypeIdentifiers` produces exactly one `EntityIdentifier` per
distinct `(typename, id)` pair observed anywhere in the result tree (one
entry, member iff observed, no duplicates, count one), and exactly one
entry per distinct observed typename in `types`, no matter how many times
a pair recurs.  The hypothesis that typenames contain no `':'` is the
GraphQL name grammar the string map key relies on. -/
theorem buildTypeIdentifiers_dedup
    (o : UseInngestDataOptions) (visits : List (String × String))
    (ids : List UseInngestEntityRecord) (tys : List String)
    (hcf : colonFreeTypenames visits = true)
    (hb : buildTypeIdentifiers o visits = .ok (ids, tys)) :
    (∀ t i, (⟨t, i⟩ : UseInngestEntityRecord) ∈ ids ↔ (t, i) ∈ visits) ∧
      ids.Nodup ∧
      (∀ t i, (t, i) ∈ visits → ids.count ⟨t, i⟩ = 1) ∧
      (∀ t, t ∈ tys ↔ ∃ i, (t, i) ∈ visits) ∧
      tys.Nodup := by
  have hcollect : collectTypeIdentifiers visits = (ids, tys) := by
    unfold buildTypeIdentifiers at hb
    cases hn : getOperationName o.params with
    | error e =>
      rw [hn] at hb
      cases hb
    | ok n =>
      rw [hn] at hb
      simp only [Except.map] at hb
      injection hb
  have hH : ∀ q ∈ visits, ':' ∉ q.1.data := by
    intro q hq
    have := (List.all_eq_true.mp hcf) q hq
    simpa using this
  have hinv := foldl_recordIdentifier_inv visits [] ([], []) (by simp) hH StInv_nil
  rw [List.nil_append] at hinv
  obtain ⟨inv1, inv2, inv3, inv4, inv5⟩ := hinv
  have h1 : (visits.foldl recordIdentifier ([], [])).1.map Prod.snd = ids :=
    congrArg Prod.fst hcollect
  have h2 : (visits.foldl recordIdentifier ([], [])).2 = tys :=
    congrArg Prod.snd hcollect
  have hA : ∀ t i, (⟨t, i⟩ : UseInngestEntityRecord) ∈ ids ↔ (t, i) ∈ visits := by
    intro t i
    rw [← h1]
    exact inv3 ⟨t, i⟩
  have hN : ids.Nodup := by
    rw [← h1]
    have hkeys : (visits.foldl recordIdentifier ([], [])).1.map Prod.fst =
        ((visits.foldl recordIdentifier ([], [])).1.map Prod.snd).map entityKey := by
      rw [List.map_map]
      exact List.map_congr_left inv1
    refine List.Nodup.of_map entityKey ?_
    rw [← hkeys]
    exact inv2
  have hC : ∀ t i, (t, i) ∈ visits → ids.count ⟨t, i⟩ = 1 :=
    fun t i hm => List.count_eq_one_of_mem hN ((hA t i).mpr hm)
  have hT : ∀ t, t ∈ tys ↔ ∃ i, (t, i) ∈ visits := by
    intro t
    rw [← h2]
    exact inv4 t
  have hTN : tys.Nodup := by
    rw [← h2]
    exact inv5
  exact ⟨hA, hN, hC, hT, hTN⟩

/-- Witness for C2: the same `(Post, 1)` pair in two list slots yields one
record for that pair and one `Post` entry in `types`. -/
theorem buildTypeIdentifiers_dedup_witness :
    colonFreeTypenames [("Post", "1"), ("Post", "2"), ("Post", "1")] = true ∧
      buildTypeIdentifiers
        (baseOptions ⟨[.operation .query (some "Q") (.fieldCons "post" .nil .nil)]⟩ none)
        [("Post", "1"), ("Post", "2"), ("Post", "1")] =
        .ok ([⟨"Post", "1"⟩, ⟨"Post", "2"⟩], ["Post"]) ∧
      ((∀ t i, (⟨t, i⟩ : UseInngestEntityRecord) ∈
            [(⟨"Post", "1"⟩ : UseInngestEntityRecord), ⟨"Post", "2"⟩] ↔
          (t, i) ∈ [("Post", "1"), ("Post", "2"), ("Post", "1")]) ∧
        ([(⟨"Post", "1"⟩ : UseInngestEntityRecord), ⟨"Post", "2"⟩]).Nodup ∧
        (∀ t i, (t, i) ∈ [("Post", "1"), ("Post", "2"), ("Post", "1")] →
          ([(⟨"Post", "1"⟩ : UseInngestEntityRecord), ⟨"Post", "2"⟩]).count ⟨t, i⟩ = 1) ∧
        (∀ t, t ∈ ["Post"] ↔ ∃ i, (t, i) ∈ [("Post", "1"), ("Post", "2"), ("Post", "1")]) ∧
        (["Post"] : List String).Nodup) :=
  ⟨by decide, rfl,
    buildTypeIdentifiers_dedup
      (baseOptions ⟨[.operation .query (some "Q") (.fieldCons "post" .nil .nil)]⟩ none)
      [("Post", "1"), ("Post", "2"), ("Post", "1")]
      [⟨"Post", "1"⟩, ⟨"Post", "2"⟩] ["Post"] (by decide) rfl⟩
